import Mathlib

/-!
Verification of the data-preparation module `src/utils/data_utils.py` of the
`attention_text_classification` repository.

The Python module is a thin pipeline over numpy / pandas / Keras:
text normalization (`text_to_wordlist`), CSV loading and label remapping
(`load_data`), a capped-vocabulary tokenizer (`get_tokenizer`), fixed-length
padding (`get_padded_sequences`), a pickle cache around the whole pipeline
(`get_data`), construction of a pretrained embedding matrix
(`get_embedding_matrix`) and a `tf.data` pipeline builder (`input_fn`).

Each Python function is embedded as a pure Lean function.  Library calls with
well-known semantics (Python `re.sub` with the concrete patterns used by the
source, Keras tokenizer fitting/encoding, Keras `pad_sequences`,
`tf.data.Dataset` pipeline construction, numpy row assignment) are modelled
directly at the granularity the source uses them.  Sources of external input
(the CSV contents, the embedding file's parsed lines, `np.random.uniform`
draws, the `train_test_split` shuffle, the NLTK stopword list and Snowball
stemmer) become explicit parameters.
-/

/-! ### Character classes used by the regex rules -/

/-- Python `\s` (whitespace) restricted to the character set relevant to this
corpus: ASCII whitespace plus the Latin-1 whitespace characters NEL and NBSP. -/
def isPySpace (c : Char) : Bool :=
  c == ' ' || c == '\t' || c == '\n' || c == '\r' ||
  c.toNat == 11 || c.toNat == 12 || c.toNat == 133 || c.toNat == 160

/-- Negation of `isPySpace`, Python `\S`. -/
def notSpaceB (c : Char) : Bool := !(isPySpace c)

/-- Python `[0-9]`. -/
def isPyDigit (c : Char) : Bool := '0' ≤ c && c ≤ '9'

/-- The apostrophe character, kept out of string literals. -/
def apos : Char := Char.ofNat 39

/-- Characters KEPT by the class `[^A-Za-z^,!.\/'+-=]` (everything else is
replaced by a space).  Inside the class, `+-=` is the character range from
`+` (43) to `=` (61). -/
def keepChar (c : Char) : Bool :=
  ('A' ≤ c && c ≤ 'Z') || ('a' ≤ c && c ≤ 'z') ||
  c == '^' || c == '!' || c == apos ||
  (43 ≤ c.toNat && c.toNat ≤ 61)

/-! ### Generic string machinery: splitting, joining, literal substitution -/

/-- Auxiliary for `splitBy`: `cur` is the current (reversed) pending word. -/
def splitByAux (p : Char → Bool) : List Char → List Char → List (List Char)
  | cur, [] => if cur.isEmpty then [] else [cur.reverse]
  | cur, c :: cs =>
    if p c then
      if cur.isEmpty then splitByAux p [] cs else cur.reverse :: splitByAux p [] cs
    else splitByAux p (c :: cur) cs

/-- Split a character list on the separator class `p`, discarding empty
pieces; models Python `str.split()` (with `p := isPySpace`). -/
def splitBy (p : Char → Bool) (l : List Char) : List (List Char) :=
  splitByAux p [] l

/-- Python `" ".join(words)`. -/
def joinWords (ws : List (List Char)) : List Char :=
  List.intercalate [' '] ws

/-- Python `str.strip()`: drop leading and trailing whitespace. -/
def pyStrip (l : List Char) : List Char :=
  ((l.dropWhile isPySpace).reverse.dropWhile isPySpace).reverse

/-- `re.sub` with a LITERAL pattern: leftmost, non-overlapping replacement of
every occurrence of `pat` by `repl`.  (An empty pattern never occurs in the
source; it is mapped to the identity.) -/
def replaceSub (pat repl : List Char) (s : List Char) : List Char :=
  match pat, s with
  | _, [] => []
  | [], c :: cs => c :: cs
  | p :: ps, c :: cs =>
    if (p :: ps).isPrefixOf (c :: cs) then
      repl ++ replaceSub (p :: ps) repl (cs.drop ps.length)
    else
      c :: replaceSub (p :: ps) repl cs
termination_by s.length
decreasing_by
  · simp only [List.length_cons, List.length_drop]
    omega
  · simp only [List.length_cons]
    omega

/-- `(l.dropWhile p)` is never longer than `l`. -/
theorem dropWhile_length_le (p : Char → Bool) :
    ∀ l : List Char, (l.dropWhile p).length ≤ l.length := by
  intro l
  induction l with
  | nil => simp
  | cons c cs ih =>
    rw [List.dropWhile_cons]
    split
    · exact Nat.le_succ_of_le ih
    · exact Nat.le_refl _

/-! ### The regex rules that are not literal substitutions -/

/-- Rule `re.sub(r"@\S+|https?:\S+|http?:\S", " ", text)`: a single
left-to-right scan; at each position the three alternatives are tried in
order (`@\S+`, then `https?:\S+`, then `htt` `p?` `:` `\S`), the `\S+` parts
being greedy; a match is replaced by a single space. -/
def rule1Go : List Char → List Char
  | [] => []
  | '@' :: cs =>
    if (cs.takeWhile notSpaceB).isEmpty then '@' :: rule1Go cs
    else ' ' :: rule1Go (cs.dropWhile notSpaceB)
  | 'h' :: 't' :: 't' :: 'p' :: 's' :: ':' :: r =>
    if (r.takeWhile notSpaceB).isEmpty then
      'h' :: rule1Go ('t' :: 't' :: 'p' :: 's' :: ':' :: r)
    else ' ' :: rule1Go (r.dropWhile notSpaceB)
  | 'h' :: 't' :: 't' :: 'p' :: ':' :: r =>
    if (r.takeWhile notSpaceB).isEmpty then
      'h' :: rule1Go ('t' :: 't' :: 'p' :: ':' :: r)
    else ' ' :: rule1Go (r.dropWhile notSpaceB)
  | 'h' :: 't' :: 't' :: ':' :: c :: r =>
    if notSpaceB c then ' ' :: rule1Go r
    else 'h' :: rule1Go ('t' :: 't' :: ':' :: c :: r)
  | c :: cs => c :: rule1Go cs
termination_by l => l.length
decreasing_by
  · simp only [List.length_cons]; omega
  · have h := dropWhile_length_le notSpaceB cs
    simp only [List.length_cons]; omega
  · simp only [List.length_cons]; omega
  · have h := dropWhile_length_le notSpaceB r
    simp only [List.length_cons]; omega
  · simp only [List.length_cons]; omega
  · have h := dropWhile_length_le notSpaceB r
    simp only [List.length_cons]; omega
  · simp only [List.length_cons]; omega
  · simp only [List.length_cons]; omega
  · simp only [List.length_cons]; omega

/-- Rule `re.sub(r"(\d+)(k)", r"\g<1>000", text)`: a maximal digit run
immediately followed by `k` becomes the digits followed by `000`.  `ds` holds
the reversed pending digit run. -/
def ruleNumKAux : List Char → List Char → List Char
  | ds, [] => ds.reverse
  | ds, c :: cs =>
    if isPyDigit c then ruleNumKAux (c :: ds) cs
    else if c == 'k' && !ds.isEmpty then
      ds.reverse ++ '0' :: '0' :: '0' :: ruleNumKAux [] cs
    else ds.reverse ++ c :: ruleNumKAux [] cs

/-- Rule `re.sub(r"(\d+)(k)", r"\g<1>000", text)`. -/
def ruleNumK (l : List Char) : List Char := ruleNumKAux [] l

/-- Flush a pending (reversed) whitespace run for `collapseWs`: a run of two
or more whitespace characters becomes one space, a single one is kept as is. -/
def flushWs : List Char → List Char
  | [] => []
  | [c] => [c]
  | _ => [' ']

/-- Auxiliary for `collapseWs`; `pend` is the pending (reversed) whitespace
run. -/
def collapseWsAux : List Char → List Char → List Char
  | pend, [] => flushWs pend
  | pend, c :: cs =>
    if isPySpace c then collapseWsAux (c :: pend) cs
    else flushWs pend ++ c :: collapseWsAux [] cs

/-- Rule `re.sub(r"\s{2,}", " ", text)`: every maximal whitespace run of
length at least two becomes a single space. -/
def collapseWs (l : List Char) : List Char := collapseWsAux [] l

/-! ### `text_to_wordlist` -/

/-- A value read from a CSV cell: either a Python string, or any non-string
value (for example the float NaN pandas produces for a missing field). -/
inductive PyVal where
  | str (s : String)
  | notStr

/-- Whether a `PyVal` is a string. -/
def PyVal.isStr : PyVal → Bool
  | .str _ => true
  | .notStr => false

/-- Embedding of `text_to_wordlist(text, remove_stopwords, stem_words)`.

`stops` models the NLTK list `stopwords.words("english")` and `stem` the
function `SnowballStemmer("english").stem`; both are deterministic library
components the source only touches inside the corresponding optional
branches, made explicit parameters here.  The chain of `re.sub` rules is
applied in exactly the source's order. -/
def textToWordlist (stops : List String) (stem : String → String)
    (text : PyVal) (removeStopwords stemWords : Bool) : String :=
  let s : String := match text with | .str s => s | .notStr => "unk"
  let ws : List (List Char) := splitBy isPySpace (s.toList.map Char.toLower)
  let ws := if removeStopwords then
      ws.filter (fun w => !(stops.contains (String.mk w)))
    else ws
  let t : List Char := joinWords ws
  let t := rule1Go t
  let t := t.filter (fun c => !(isPyDigit c))
  let t := t.map (fun c => if keepChar c then c else ' ')
  let t := replaceSub ['w', 'h', 'a', 't', apos, 's'] "what is ".toList t
  let t := replaceSub ['t', 'h', 'a', 't', apos, 's'] "that is ".toList t
  let t := replaceSub [apos, 's'] " ".toList t
  let t := replaceSub [apos, 'v', 'e'] " have ".toList t
  let t := replaceSub ['c', 'a', 'n', apos, 't'] "cannot ".toList t
  let t := replaceSub ['n', apos, 't'] " not ".toList t
  let t := replaceSub ['i', apos, 'm'] "i am ".toList t
  let t := replaceSub [apos, 'r', 'e'] " are ".toList t
  let t := replaceSub [apos, 'd'] " would ".toList t
  let t := replaceSub [apos, 'l', 'l'] " will ".toList t
  let t := replaceSub [','] " ".toList t
  let t := replaceSub ['.'] " ".toList t
  let t := replaceSub ['!'] " ! ".toList t
  let t := replaceSub ['/'] " ".toList t
  let t := replaceSub ['^'] " ^ ".toList t
  let t := replaceSub ['+'] " + ".toList t
  let t := replaceSub ['-'] " - ".toList t
  let t := replaceSub ['='] " = ".toList t
  let t := replaceSub [apos] " ".toList t
  let t := ruleNumK t
  let t := replaceSub [':'] " : ".toList t
  let t := replaceSub " e g ".toList " eg ".toList t
  let t := replaceSub " b g ".toList " bg ".toList t
  let t := replaceSub " u s ".toList " american ".toList t
  let t := replaceSub [Char.ofNat 0, 's'] "0".toList t
  let t := replaceSub " 9 11 ".toList "911".toList t
  let t := replaceSub "e - mail".toList "email".toList t
  let t := replaceSub "j k".toList "jk".toList t
  let t := collapseWs t
  let t := if stemWords then
      joinWords ((splitBy isPySpace t).map (fun w => (stem (String.mk w)).toList))
    else t
  String.mk (pyStrip t)

/-! ### Keras tokenizer model -/

/-- The default `filters` string of `tf.keras.preprocessing.text.Tokenizer`:
ASCII punctuation plus tab and newline; each such character is replaced by
the split character (a space). -/
def kerasFilters : List Char :=
  ['!', '"', '#', '$', '%', '&', '(', ')', '*', '+', ',', '-', '.', '/',
   ':', ';', '<', '=', '>', '?', '@', '[', '\\', ']', '^', '_',
   Char.ofNat 96, Char.ofNat 123, '|', Char.ofNat 125, '~', '\t', '\n']

/-- Keras `text_to_word_sequence`: lower-case, map every filter character to
the split character, split on it, discard empty pieces. -/
def textToWordSequence (s : String) : List String :=
  let chars := s.toList.map Char.toLower
  let chars := chars.map (fun c => if kerasFilters.contains c then ' ' else c)
  (splitBy (fun c => c == ' ') chars).map String.mk

/-- Add one word occurrence to an occurrence-ordered count list (Python
`OrderedDict` update: increment in place, or append with count 1). -/
def addWord (counts : List (String × Nat)) (w : String) : List (String × Nat) :=
  if counts.any (fun p => p.1 == w) then
    counts.map (fun p => if p.1 == w then (p.1, p.2 + 1) else p)
  else counts ++ [(w, 1)]

/-- Word counts of a corpus in order of first occurrence
(`Tokenizer.word_counts`). -/
def fitCounts (texts : List String) : List (String × Nat) :=
  texts.foldl (fun acc t => (textToWordSequence t).foldl addWord acc) []

/-- Insert an entry into a count-descending list, after all entries with a
count greater than or equal to its own (so that folding over the
occurrence-ordered counts is a stable descending sort, as Python's
`sort(key=count, reverse=True)` is). -/
def insertByCount (x : String × Nat) : List (String × Nat) → List (String × Nat)
  | [] => [x]
  | y :: ys => if y.2 < x.2 then x :: y :: ys else y :: insertByCount x ys

/-- The fitted vocabulary, most frequent first (Python's stable
`sort(key=count, reverse=True)` over the occurrence-ordered counts); word at
position `k` has index `k + 1` in `word_index`. -/
def sortedVocabOf (counts : List (String × Nat)) : List String :=
  (counts.foldl (fun acc x => insertByCount x acc) []).map Prod.fst

/-- A fitted Keras tokenizer: the `num_words` cap and the fitted vocabulary
(most frequent first). -/
structure Tokenizer where
  numWords : Nat
  sortedVocab : List String

/-- `Tokenizer.word_index` lookup: word at vocabulary position `k` has index
`k + 1`. -/
def wordIndex (tok : Tokenizer) (w : String) : Option Nat :=
  (tok.sortedVocab.indexOf? w).map (· + 1)

/-- `Tokenizer.index_word` lookup (the inverse dictionary): defined on
indices `1 .. sortedVocab.length`. -/
def index_word (tok : Tokenizer) (i : Nat) : Option String :=
  if i = 0 then none else tok.sortedVocab.get? (i - 1)

/-- `VOCAB_SIZE = 20000` from the source. -/
def VOCAB_SIZE : Nat := 20000

/-- `EMBEDDING_SIZE = 50` from the source. -/
def EMBEDDING_SIZE : Nat := 50

/-- Embedding of `get_tokenizer(text)`:
`Tokenizer(num_words=VOCAB_SIZE)` fitted on the texts. -/
def get_tokenizer (texts : List String) : Tokenizer :=
  { numWords := VOCAB_SIZE, sortedVocab := sortedVocabOf (fitCounts texts) }

/-- Keras `Tokenizer.texts_to_sequences`: encode each text's words through
`word_index`, dropping unknown words and words whose index `i` fails
`i < num_words` (the Keras guard is `if num_words and i >= num_words:
continue`). -/
def textsToSequences (tok : Tokenizer) (texts : List String) : List (List Nat) :=
  texts.map fun t =>
    (textToWordSequence t).filterMap fun w =>
      match wordIndex tok w with
      | some i => if i < tok.numWords then some i else none
      | none => none

/-- Keras `pad_sequences(seqs, maxlen)` with the default settings the source
uses (`padding='pre'`, `truncating='pre'`, `value=0`): keep the last `maxlen`
entries and left-pad with zeros up to `maxlen`. -/
def padSequences (maxlen : Nat) (seqs : List (List Nat)) : List (List Nat) :=
  seqs.map fun s => List.replicate (maxlen - s.length) 0 ++ s.drop (s.length - maxlen)

/-- Embedding of `get_padded_sequences(tokenizer, text)`:
`pad_sequences(tokenizer.texts_to_sequences(text), maxlen=50)`. -/
def get_padded_sequences (tok : Tokenizer) (texts : List String) : List (List Nat) :=
  padSequences 50 (textsToSequences tok texts)

/-! ### Claims about the text normalizer (C7, C9) -/

/-- Claim C7: `text_to_wordlist` is a pure, deterministic function: two calls
with the same text and the same `remove_stopwords` / `stem_words` flags return
the same cleaned string; moreover, with both flags off (the only way the
repository calls it) the result does not depend on the external library
components (stopword list, stemmer) at all. -/
theorem text_to_wordlist_deterministic (stops : List String)
    (stem : String → String) (text : PyVal) (removeStopwords stemWords : Bool) :
    textToWordlist stops stem text removeStopwords stemWords =
      textToWordlist stops stem text removeStopwords stemWords ∧
    ∀ (stops2 : List String) (stem2 : String → String),
      textToWordlist stops stem text false false =
        textToWordlist stops2 stem2 text false false := by
  exact ⟨rfl, fun stops2 stem2 => rfl⟩

/-- Claim C9: `text_to_wordlist` is total over arbitrarily typed input: any
non-string argument is substituted by the placeholder `"unk"`, so the call
returns the normalization of `"unk"` instead of raising. -/
theorem text_to_wordlist_nonstring_unk (v : PyVal) (h : v.isStr = false)
    (stops : List String) (stem : String → String) (rs sw : Bool) :
    textToWordlist stops stem v rs sw =
      textToWordlist stops stem (PyVal.str "unk") rs sw := by
  cases v with
  | str s => simp [PyVal.isStr] at h
  | notStr => rfl

/-- Witness for C9 at the concrete non-string value. -/
theorem text_to_wordlist_nonstring_unk_witness :
    PyVal.notStr.isStr = false ∧
    textToWordlist [] id PyVal.notStr false false =
      textToWordlist [] id (PyVal.str "unk") false false :=
  ⟨rfl, text_to_wordlist_nonstring_unk PyVal.notStr rfl [] id false false⟩

/-! ### Claims about sequence encoding (C2, C3) -/

/-- Claim C2: every row produced by `get_padded_sequences` has length exactly
50; a token sequence is truncated to 50 entries (Keras keeps the last 50) and
a shorter one is left-padded with zeros up to length 50. -/
theorem padded_sequences_fixed_length (tok : Tokenizer) (texts : List String)
    (k : Nat) (s : List Nat)
    (hk : k < (textsToSequences tok texts).length)
    (hs : (textsToSequences tok texts).getD k [] = s) :
    (get_padded_sequences tok texts).length = (textsToSequences tok texts).length ∧
    ((get_padded_sequences tok texts).getD k []).length = 50 ∧
    (get_padded_sequences tok texts).getD k [] =
      List.replicate (50 - s.length) 0 ++ s.drop (s.length - 50) ∧
    (50 ≤ s.length →
      (get_padded_sequences tok texts).getD k [] = s.drop (s.length - 50)) ∧
    (s.length < 50 →
      (get_padded_sequences tok texts).getD k [] =
        List.replicate (50 - s.length) 0 ++ s) := by
  have hrow : (get_padded_sequences tok texts).getD k [] =
      List.replicate (50 - s.length) 0 ++ s.drop (s.length - 50) := by
    unfold get_padded_sequences padSequences
    rw [List.getD_eq_getElem?_getD, List.getElem?_map,
      List.getElem?_eq_getElem hk]
    rw [List.getD_eq_getElem?_getD, List.getElem?_eq_getElem hk] at hs
    simp only [Option.getD_some] at hs
    simp [hs]
  refine ⟨?_, ?_, hrow, ?_, ?_⟩
  · unfold get_padded_sequences padSequences
    exact List.length_map _ _
  · rw [hrow]
    simp only [List.length_append, List.length_replicate, List.length_drop]
    omega
  · intro h50
    rw [hrow]
    have : 50 - s.length = 0 := by omega
    rw [this]
    simp
  · intro h50
    rw [hrow]
    have : s.length - 50 = 0 := by omega
    rw [this]
    simp

/-- Witness for C2 on a concrete fitted tokenizer and text. -/
theorem padded_sequences_fixed_length_witness :
    (get_padded_sequences (get_tokenizer ["a"]) ["a"]).length =
      (textsToSequences (get_tokenizer ["a"]) ["a"]).length ∧
    ((get_padded_sequences (get_tokenizer ["a"]) ["a"]).getD 0 []).length = 50 ∧
    (get_padded_sequences (get_tokenizer ["a"]) ["a"]).getD 0 [] =
      List.replicate (50 - [1].length) 0 ++ [1].drop ([1].length - 50) ∧
    (50 ≤ [1].length →
      (get_padded_sequences (get_tokenizer ["a"]) ["a"]).getD 0 [] =
        [1].drop ([1].length - 50)) ∧
    ([1].length < 50 →
      (get_padded_sequences (get_tokenizer ["a"]) ["a"]).getD 0 [] =
        List.replicate (50 - [1].length) 0 ++ [1]) :=
  padded_sequences_fixed_length (get_tokenizer ["a"]) ["a"] 0 [1]
    (by decide) (by decide)

/-- Claim C3: every integer appearing in the padded sequences produced by
`get_padded_sequences` with a tokenizer fitted by `get_tokenizer` (on any
corpus) is strictly less than `VOCAB_SIZE`: real token indices are filtered by
the `num_words = VOCAB_SIZE` cap and padding adds only zeros. -/
theorem padded_values_lt_vocab (corpus texts : List String) (row : List Nat)
    (hrow : row ∈ get_padded_sequences (get_tokenizer corpus) texts)
    (x : Nat) (hx : x ∈ row) : x < VOCAB_SIZE := by
  unfold get_padded_sequences padSequences at hrow
  obtain ⟨s, hs, hrow⟩ := List.mem_map.1 hrow
  subst hrow
  rcases List.mem_append.1 hx with hx | hx
  · rw [List.eq_of_mem_replicate hx]
    decide
  · have hxs : x ∈ s := List.mem_of_mem_drop hx
    unfold textsToSequences at hs
    obtain ⟨t, _, hts⟩ := List.mem_map.1 hs
    subst hts
    obtain ⟨w, _, hw⟩ := List.mem_filterMap.1 hxs
    split at hw
    · rename_i i hidx
      split at hw
      · rename_i hlt
        injection hw with hix
        subst hix
        exact hlt
      · exact absurd hw (by simp)
    · exact absurd hw (by simp)

/-- Witness for C3 on a concrete corpus, text, row and entry. -/
theorem padded_values_lt_vocab_witness : (1 : Nat) < VOCAB_SIZE :=
  padded_values_lt_vocab ["a"] ["a"] (List.replicate 49 0 ++ [1])
    (by decide) 1 (by decide)

/-! ### Corpus loader and pipeline cache -/

/-- A raw CSV frame, restricted to the two columns the pipeline uses:
`target` (integer labels) and `text` (cells that may fail to be strings). -/
structure RawFrame where
  target : List Int
  text : List PyVal

/-- A cleaned frame: `target` as read, `text` after `text_to_wordlist`. -/
structure CleanFrame where
  target : List Int
  text : List String

/-- Embedding of `load_data()`.  The two CSV reads (`maybe_download` +
`pd.read_csv`) are the `rawTrain` / `rawInf` parameters.  Both text columns
are cleaned with `text_to_wordlist(x)` (default flags, so the stopword list
and stemmer are never touched), then `df.target.replace(4, 1, inplace=True)`
remaps the label 4 to 1 in the training frame only. -/
def load_data (rawTrain rawInf : RawFrame) : CleanFrame × CleanFrame :=
  let df : CleanFrame :=
    { target := rawTrain.target.map (fun t => if t = 4 then 1 else t),
      text := rawTrain.text.map (fun x => textToWordlist [] id x false false) }
  let infDf : CleanFrame :=
    { target := rawInf.target,
      text := rawInf.text.map (fun x => textToWordlist [] id x false false) }
  (df, infDf)

/-- The tuple pickled by `get_data` — in the DUMP order of the source:
`(train_X, test_X, train_y, test_y, inf_text, tokenizer)`. -/
def SavedData : Type :=
  List (List Nat) × List (List Nat) × List Int × List Int × List (List Nat) × Tokenizer

/-- The tuple `get_data` RETURNS:
`(train_X, train_y, test_X, test_y, inf_text, tokenizer)`. -/
def DataResult : Type :=
  List (List Nat) × List Int × List (List Nat) × List Int × List (List Nat) × Tokenizer

/-- Embedding of `get_data(params)`.

The filesystem state behind `params.data_dir` is the explicit `fs` argument:
`none` when the directory does not exist, `some saved` when `data.pkl` holds
the tuple `saved` (pickles are modelled as storing values exactly).  The raw
CSV contents are `rawTrain` / `rawInf` and the randomized
`train_test_split(text, df.target, test_size=0.25)` is the `split` parameter.
Returns the result tuple together with the filesystem state after the call. -/
def get_data (fs : Option SavedData) (rawTrain rawInf : RawFrame)
    (split : List (List Nat) → List Int →
      List (List Nat) × List (List Nat) × List Int × List Int) :
    DataResult × Option SavedData :=
  match fs with
  | some (trainX, testX, trainY, testY, infText, tok) =>
    ((trainX, trainY, testX, testY, infText, tok),
     some (trainX, testX, trainY, testY, infText, tok))
  | none =>
    let dfs := load_data rawTrain rawInf
    let tok := get_tokenizer dfs.1.text
    let text := get_padded_sequences tok dfs.1.text
    let infText := get_padded_sequences tok dfs.2.text
    match split text dfs.1.target with
    | (trainX, testX, trainY, testY) =>
      ((trainX, trainY, testX, testY, infText, tok),
       some (trainX, testX, trainY, testY, infText, tok))

/-! ### Claims about the loader and the cache (C5, C6) -/

/-- Claim C5: the pipeline cache round-trips.  A first `get_data` call on a
non-existent `data_dir` computes and persists the artifacts; a second call on
the resulting state takes the cache branch and returns exactly the tuple the
first call returned (and leaves the state unchanged) — whatever raw data and
split randomness the second call would otherwise have used, i.e. without
recomputing. -/
theorem get_data_cache_roundtrip (rawTrain rawInf rawTrain2 rawInf2 : RawFrame)
    (split split2 : List (List Nat) → List Int →
      List (List Nat) × List (List Nat) × List Int × List Int) :
    get_data (get_data none rawTrain rawInf split).2 rawTrain2 rawInf2 split2 =
      get_data none rawTrain rawInf split := by
  unfold get_data
  rcases split (get_padded_sequences (get_tokenizer (load_data rawTrain rawInf).1.text)
      (load_data rawTrain rawInf).1.text) (load_data rawTrain rawInf).1.target with
    ⟨trainX, testX, trainY, testY⟩
  rfl

/-- Claim C6: `load_data` remaps the label encoding of the training frame:
every raw target value 4 becomes 1 and every other target value is unchanged
(position by position); the inference frame's targets are untouched. -/
theorem load_data_target_remap (rawTrain rawInf : RawFrame) (i : Nat)
    (hi : i < rawTrain.target.length) :
    (load_data rawTrain rawInf).1.target.length = rawTrain.target.length ∧
    (rawTrain.target.getD i 0 = 4 →
      (load_data rawTrain rawInf).1.target.getD i 0 = 1) ∧
    (rawTrain.target.getD i 0 ≠ 4 →
      (load_data rawTrain rawInf).1.target.getD i 0 = rawTrain.target.getD i 0) ∧
    (load_data rawTrain rawInf).2.target = rawInf.target := by
  have hget : (load_data rawTrain rawInf).1.target.getD i 0 =
      (if rawTrain.target.getD i 0 = 4 then 1 else rawTrain.target.getD i 0) := by
    unfold load_data
    rw [List.getD_eq_getElem?_getD, List.getElem?_map,
      List.getElem?_eq_getElem hi]
    rw [List.getD_eq_getElem?_getD, List.getElem?_eq_getElem hi]
    simp
  refine ⟨by unfold load_data; simp, ?_, ?_, rfl⟩
  · intro h4
    rw [hget, if_pos h4]
  · intro h4
    rw [hget, if_neg h4]

/-- Witness for C6 on a concrete frame holding both a 4 and a non-4 label. -/
theorem load_data_target_remap_witness :
    (load_data ⟨[4, 0], [PyVal.notStr]⟩ ⟨[2], []⟩).1.target.length =
      (⟨[4, 0], [PyVal.notStr]⟩ : RawFrame).target.length ∧
    ((⟨[4, 0], [PyVal.notStr]⟩ : RawFrame).target.getD 0 0 = 4 →
      (load_data ⟨[4, 0], [PyVal.notStr]⟩ ⟨[2], []⟩).1.target.getD 0 0 = 1) ∧
    ((⟨[4, 0], [PyVal.notStr]⟩ : RawFrame).target.getD 0 0 ≠ 4 →
      (load_data ⟨[4, 0], [PyVal.notStr]⟩ ⟨[2], []⟩).1.target.getD 0 0 =
        (⟨[4, 0], [PyVal.notStr]⟩ : RawFrame).target.getD 0 0) ∧
    (load_data ⟨[4, 0], [PyVal.notStr]⟩ ⟨[2], []⟩).2.target =
      (⟨[2], []⟩ : RawFrame).target :=
  load_data_target_remap ⟨[4, 0], [PyVal.notStr]⟩ ⟨[2], []⟩ 0 (by decide)

/-! ### `tf.data` pipeline model and `input_fn` -/

/-- Python runtime errors the embedded functions can raise. -/
inductive PyError where
  | keyError
  | assertionError
deriving DecidableEq

/-- The element a dataset is built from: `(features, labels)` when labels are
provided, bare `features` otherwise. -/
inductive InputData (F L : Type) where
  | withLabels (features : F) (labels : L)
  | featuresOnly (features : F)

/-- A symbolic `tf.data.Dataset` pipeline: the tree of construction calls the
source applies (`from_tensor_slices`, `.shuffle`, `.repeat`, `.batch`). -/
inductive TfDataset (α : Type) where
  | fromTensorSlices (data : α)
  | shuffle (bufferSize seed : Nat) (d : TfDataset α)
  | repeatD (d : TfDataset α)
  | batch (batchSize : Nat) (d : TfDataset α)

/-- Whether a pipeline contains a `.shuffle` stage. -/
def containsShuffle {α : Type} : TfDataset α → Bool
  | .fromTensorSlices _ => false
  | .shuffle _ _ _ => true
  | .repeatD d => containsShuffle d
  | .batch _ d => containsShuffle d

/-- Whether a pipeline contains a `.repeat` stage. -/
def containsRepeat {α : Type} : TfDataset α → Bool
  | .fromTensorSlices _ => false
  | .shuffle _ _ d => containsRepeat d
  | .repeatD _ => true
  | .batch _ d => containsRepeat d

/-- The batch size of the outermost stage, when it is a `.batch`. -/
def outerBatchSize {α : Type} : TfDataset α → Option Nat
  | .batch n _ => some n
  | _ => none

/-- Embedding of `input_fn(features, labels, batch_size, buffer_size=None)`:
assert `buffer_size is not None`, slice `(features, labels)` (or bare
`features` when `labels is None`), shuffle-with-seed-0 and repeat only when
labels are present, batch always. -/
def input_fn {F L : Type} (features : F) (labels : Option L) (batchSize : Nat)
    (bufferSize : Option Nat) : Except PyError (TfDataset (InputData F L)) :=
  match bufferSize with
  | none => .error .assertionError
  | some buf =>
    let inputData : InputData F L :=
      match labels with
      | some l => .withLabels features l
      | none => .featuresOnly features
    let dataset := TfDataset.fromTensorSlices inputData
    let dataset :=
      match labels with
      | some _ => (dataset.shuffle buf 0).repeatD
      | none => dataset
    .ok (dataset.batch batchSize)

/-! ### Claims about `input_fn` (C4, C10) -/

/-- Counterexample to C4 as stated: in the inference case (`labels is None`)
the returned pipeline is NOT shuffled and NOT repeating — it is only the
batching of the tensor slices. -/
theorem input_fn_inference_not_shuffled :
    ∃ d, input_fn ([1, 2, 3] : List Int) (none : Option (List Int)) 2 (some 1) =
        .ok d ∧
      containsShuffle d = false ∧ containsRepeat d = false :=
  ⟨TfDataset.batch 2 (.fromTensorSlices (.featuresOnly [1, 2, 3])), rfl, rfl, rfl⟩

/-- Claim C4 (amended): `input_fn` always returns a pipeline batched with the
given batch size; when labels are provided it is additionally shuffled
(with the given buffer size, seed 0) and repeating, and when `labels` is
`None` it is neither shuffled nor repeating. -/
theorem input_fn_pipeline_shape (F L : Type) (features : F) (batchSize buf : Nat) :
    (∀ l : L, ∃ d, input_fn features (some l) batchSize (some buf) = .ok d ∧
      containsShuffle d = true ∧ containsRepeat d = true ∧
      outerBatchSize d = some batchSize) ∧
    (∃ d, input_fn features (none : Option L) batchSize (some buf) = .ok d ∧
      containsShuffle d = false ∧ containsRepeat d = false ∧
      outerBatchSize d = some batchSize) := by
  constructor
  · intro l
    refine ⟨TfDataset.batch batchSize
      (TfDataset.repeatD (TfDataset.shuffle buf 0
        (TfDataset.fromTensorSlices (InputData.withLabels features l)))),
      rfl, rfl, rfl, rfl⟩
  · refine ⟨TfDataset.batch batchSize
      (TfDataset.fromTensorSlices (InputData.featuresOnly features)),
      rfl, rfl, rfl, rfl⟩

/-- Claim C10: `input_fn` asserts `buffer_size is not None` before anything
else, so every call with `buffer_size=None` raises the assertion error — even
in the inference case where the buffer size would never be used. -/
theorem input_fn_buffer_size_assert (F L : Type) (features : F)
    (labels : Option L) (batchSize : Nat) :
    input_fn features labels batchSize none = .error PyError.assertionError :=
  rfl

/-! ### `get_embedding_matrix` -/

/-- The parsed lines of the pretrained embedding file after
`values = line.split(); word = values[0]; coefs = values[1:]`: per line, the
word and its coefficient vector (coefficients as exact rationals). -/
abbrev EmbEntries : Type := List (String × List ℚ)

/-- `embeddings_index`: the dictionary built by inserting the file's lines in
order, so a later line for the same word overwrites an earlier one. -/
def embeddingsIndex (entries : EmbEntries) (w : String) : Option (List ℚ) :=
  (entries.reverse.find? (fun e => e.1 == w)).map Prod.snd

/-- One row of the matrix for loop index `i` (`1 ≤ i ≤ VOCAB_SIZE`),
mirroring the loop body: `word = tokenizer.index_word[i]` OUTSIDE the
`try` (a missing index raises `KeyError`); inside the `try`,
`embedding[i-1] = embeddings_index[word]` succeeds when the looked-up vector
fills the row (numpy also broadcasts a length-1 vector), and ANY failure —
word absent, or a vector that does not fit the row — falls back to
`np.random.uniform(-1, 1, EMBEDDING_SIZE)`, modelled by `rand i`. -/
def embeddingRow (tok : Tokenizer) (entries : EmbEntries) (rand : Nat → List ℚ)
    (i : Nat) : Except PyError (List ℚ) :=
  match index_word tok i with
  | none => .error .keyError
  | some w =>
    .ok (match embeddingsIndex entries w with
      | some v =>
        if v.length = EMBEDDING_SIZE then v
        else if v.length = 1 then List.replicate EMBEDDING_SIZE (v.headD 0)
        else rand i
      | none => rand i)

/-- The loop `for i in range(1, VOCAB_SIZE + 1)` collecting rows
`embedding[i-1]`; the first raised error aborts the call. -/
def buildRows (f : Nat → Except PyError (List ℚ)) :
    Nat → Nat → Except PyError (List (List ℚ))
  | _, 0 => .ok []
  | i, n + 1 =>
    match f i with
    | .error e => .error e
    | .ok r =>
      match buildRows f (i + 1) n with
      | .error e => .error e
      | .ok rest => .ok (r :: rest)

/-- Embedding of `get_embedding_matrix(tokenizer)`.  The downloaded file's
parsed lines are the `entries` parameter and the `np.random.uniform` draw of
loop iteration `i` is `rand i`. -/
def get_embedding_matrix (tok : Tokenizer) (entries : EmbEntries)
    (rand : Nat → List ℚ) : Except PyError (List (List ℚ)) :=
  buildRows (embeddingRow tok entries rand) 1 VOCAB_SIZE

/-- If every loop index yields a row, the loop returns the matrix of those
rows in order. -/
theorem buildRows_ok (f : Nat → Except PyError (List ℚ)) :
    ∀ n i, (∀ j, i ≤ j → j < i + n → ∃ v, f j = .ok v) →
    ∃ M, buildRows f i n = .ok M ∧ M.length = n ∧
      ∀ k, k < n → ∃ v, f (i + k) = .ok v ∧ M.getD k [] = v := by
  intro n
  induction n with
  | zero => exact fun i _ => ⟨[], rfl, rfl, fun k hk => absurd hk (by omega)⟩
  | succ n ih =>
    intro i hok
    obtain ⟨v0, hv0⟩ := hok i (Nat.le_refl i) (by omega)
    obtain ⟨M', hM', hlen', hget'⟩ := ih (i + 1)
      (fun j hj1 hj2 => hok j (by omega) (by omega))
    refine ⟨v0 :: M', ?_, ?_, ?_⟩
    · unfold buildRows
      rw [hv0, hM']
    · simp [hlen']
    · intro k hk
      cases k with
      | zero => exact ⟨v0, by rw [Nat.add_zero]; exact hv0, rfl⟩
      | succ k =>
        obtain ⟨v, hv, hg⟩ := hget' k (by omega)
        refine ⟨v, ?_, hg⟩
        have : i + (k + 1) = i + 1 + k := by omega
        rw [this]
        exact hv

/-- If every loop index before `m` yields a row and index `m` raises, the
loop propagates that error. -/
theorem buildRows_error (f : Nat → Except PyError (List ℚ)) (e : PyError) :
    ∀ n i m, i ≤ m → m < i + n → f m = .error e →
    (∀ j, i ≤ j → j < m → ∃ v, f j = .ok v) →
    buildRows f i n = .error e := by
  intro n
  induction n with
  | zero => exact fun i m h1 h2 _ _ => absurd h2 (by omega)
  | succ n ih =>
    intro i m h1 h2 herr hok
    rcases Nat.eq_or_lt_of_le h1 with heq | hlt
    · subst heq
      unfold buildRows
      rw [herr]
    · obtain ⟨v0, hv0⟩ := hok i (Nat.le_refl i) hlt
      unfold buildRows
      rw [hv0, ih (i + 1) m hlt (by omega) herr
        (fun j hj1 hj2 => hok j (by omega) hj2)]

/-- A vector found in the dictionary of a well-formed embedding file has
`EMBEDDING_SIZE` coefficients. -/
theorem embeddingsIndex_length (entries : EmbEntries)
    (hfmt : ∀ p ∈ entries, (Prod.snd p).length = EMBEDDING_SIZE)
    (w : String) (u : List ℚ) (hu : embeddingsIndex entries w = some u) :
    u.length = EMBEDDING_SIZE := by
  unfold embeddingsIndex at hu
  obtain ⟨a, ha, hau⟩ := Option.map_eq_some'.1 hu
  have : a ∈ entries := List.mem_reverse.1 (List.mem_of_find?_eq_some ha)
  rw [← hau]
  exact hfmt a this

/-- A loop index within the fitted vocabulary always yields a row. -/
theorem embeddingRow_ok_of_le (tok : Tokenizer) (entries : EmbEntries)
    (rand : Nat → List ℚ) (j : Nat) (hj1 : 1 ≤ j)
    (hjle : j ≤ tok.sortedVocab.length) :
    ∃ v, embeddingRow tok entries rand j = .ok v := by
  have hj : j - 1 < tok.sortedVocab.length := by omega
  have hw : index_word tok j = some (tok.sortedVocab.get ⟨j - 1, hj⟩) := by
    unfold index_word
    rw [if_neg (by omega : ¬j = 0)]
    exact List.get?_eq_get hj
  unfold embeddingRow
  rw [hw]
  exact ⟨_, rfl⟩

/-- Characterization of a successfully built row: it has `EMBEDDING_SIZE`
entries, and it is the file's vector for the word of this index when the word
is in the file, else the random fallback (whose components the
`np.random.uniform(-1, 1, ·)` contract bounds). -/
theorem embeddingRow_ok_cases (tok : Tokenizer) (entries : EmbEntries)
    (rand : Nat → List ℚ)
    (hfmt : ∀ p ∈ entries, (Prod.snd p).length = EMBEDDING_SIZE)
    (hrand : ∀ i, (rand i).length = EMBEDDING_SIZE ∧
      ∀ x ∈ rand i, (-1 : ℚ) ≤ x ∧ x < 1)
    (i : Nat) (v : List ℚ)
    (hv : embeddingRow tok entries rand i = .ok v) :
    v.length = EMBEDDING_SIZE ∧
    ∀ w, index_word tok i = some w →
      ((∃ u, embeddingsIndex entries w = some u ∧ v = u) ∨
       (embeddingsIndex entries w = none ∧ ∀ x ∈ v, (-1 : ℚ) ≤ x ∧ x < 1)) := by
  unfold embeddingRow at hv
  cases hidx : index_word tok i with
  | none => rw [hidx] at hv; exact absurd hv (by simp)
  | some w0 =>
    rw [hidx] at hv
    injection hv with hv
    cases he : embeddingsIndex entries w0 with
    | some u =>
      have hu : u.length = EMBEDDING_SIZE :=
        embeddingsIndex_length entries hfmt w0 u he
      rw [he] at hv
      simp only [if_pos hu] at hv
      constructor
      · rw [← hv]; exact hu
      · intro w hw
        injection hw with hw
        subst hw
        exact Or.inl ⟨u, he, hv.symm⟩
    | none =>
      rw [he] at hv
      constructor
      · rw [← hv]; exact (hrand i).1
      · intro w hw
        injection hw with hw
        subst hw
        refine Or.inr ⟨he, ?_⟩
        rw [← hv]
        exact (hrand i).2

/-! ### Claims about the embedding matrix (C1, C8) -/

/-- Claim C1: when the fitted vocabulary covers indices `1 .. VOCAB_SIZE` (and
the embedding file is well-formed, and the `np.random.uniform(-1, 1, ·)` draws
obey their contract), `get_embedding_matrix` returns a `VOCAB_SIZE ×
EMBEDDING_SIZE` matrix whose row `k` (for vocabulary index `k + 1`) is the
file's vector of the word with index `k + 1` when that word is in the file,
and otherwise a random fallback vector with every component in `[-1, 1)`. -/
theorem embedding_matrix_shape_and_content (tok : Tokenizer)
    (entries : EmbEntries) (rand : Nat → List ℚ)
    (hcov : VOCAB_SIZE ≤ tok.sortedVocab.length)
    (hfmt : ∀ p ∈ entries, (Prod.snd p).length = EMBEDDING_SIZE)
    (hrand : ∀ i, (rand i).length = EMBEDDING_SIZE ∧
      ∀ x ∈ rand i, (-1 : ℚ) ≤ x ∧ x < 1) :
    ∃ M, get_embedding_matrix tok entries rand = .ok M ∧
      M.length = VOCAB_SIZE ∧
      (∀ k, k < VOCAB_SIZE → (M.getD k []).length = EMBEDDING_SIZE) ∧
      (∀ k, k < VOCAB_SIZE → ∀ w, index_word tok (k + 1) = some w →
        ((∃ u, embeddingsIndex entries w = some u ∧ M.getD k [] = u) ∨
         (embeddingsIndex entries w = none ∧
           ∀ x ∈ M.getD k [], (-1 : ℚ) ≤ x ∧ x < 1))) := by
  obtain ⟨M, hM, hlen, hget⟩ :=
    buildRows_ok (embeddingRow tok entries rand) VOCAB_SIZE 1
      (fun j hj1 hj2 =>
        embeddingRow_ok_of_le tok entries rand j hj1 (by omega))
  refine ⟨M, hM, hlen, ?_, ?_⟩
  · intro k hk
    obtain ⟨v, hv, hgv⟩ := hget k hk
    rw [hgv]
    exact (embeddingRow_ok_cases tok entries rand hfmt hrand (1 + k) v hv).1
  · intro k hk w hw
    obtain ⟨v, hv, hgv⟩ := hget k hk
    rw [hgv]
    have hcases :=
      (embeddingRow_ok_cases tok entries rand hfmt hrand (1 + k) v hv).2 w
    rw [Nat.add_comm 1 k] at hcases
    exact hcases hw

/-- Witness for C1 at a concrete covering tokenizer, empty file and zero
fallback draws. -/
theorem embedding_matrix_shape_and_content_witness :
    ∃ M, get_embedding_matrix ⟨VOCAB_SIZE, List.replicate VOCAB_SIZE "the"⟩ []
        (fun _ => List.replicate EMBEDDING_SIZE 0) = .ok M ∧
      M.length = VOCAB_SIZE ∧
      (∀ k, k < VOCAB_SIZE → (M.getD k []).length = EMBEDDING_SIZE) ∧
      (∀ k, k < VOCAB_SIZE → ∀ w,
        index_word ⟨VOCAB_SIZE, List.replicate VOCAB_SIZE "the"⟩ (k + 1) = some w →
        ((∃ u, embeddingsIndex [] w = some u ∧ M.getD k [] = u) ∨
         (embeddingsIndex [] w = none ∧
           ∀ x ∈ M.getD k [], (-1 : ℚ) ≤ x ∧ x < 1))) :=
  embedding_matrix_shape_and_content ⟨VOCAB_SIZE, List.replicate VOCAB_SIZE "the"⟩
    [] (fun _ => List.replicate EMBEDDING_SIZE 0)
    (by simp)
    (by simp)
    (fun i => ⟨by simp, fun x hx => by
      rw [List.eq_of_mem_replicate hx]; norm_num⟩)

/-- Claim C8: `tokenizer.index_word[i]` is looked up outside the `try`, so the
call fails with a `KeyError` exactly when the fitted vocabulary has fewer than
`VOCAB_SIZE` tokens; with full coverage, the error branch is unreachable and a
matrix is returned. -/
theorem embedding_matrix_coverage_safety (tok : Tokenizer)
    (entries : EmbEntries) (rand : Nat → List ℚ) :
    (tok.sortedVocab.length < VOCAB_SIZE →
      get_embedding_matrix tok entries rand = .error PyError.keyError) ∧
    (VOCAB_SIZE ≤ tok.sortedVocab.length →
      ∃ M, get_embedding_matrix tok entries rand = .ok M) := by
  constructor
  · intro hsmall
    unfold get_embedding_matrix
    apply buildRows_error (embeddingRow tok entries rand) PyError.keyError
      VOCAB_SIZE 1 (tok.sortedVocab.length + 1) (by omega) (by omega)
    · unfold embeddingRow index_word
      rw [if_neg (by omega : ¬tok.sortedVocab.length + 1 = 0)]
      have hnone : tok.sortedVocab.get? (tok.sortedVocab.length + 1 - 1) = none := by
        rw [List.get?_eq_none]
        omega
      rw [hnone]
    · intro j hj1 hj2
      exact embeddingRow_ok_of_le tok entries rand j hj1 (by omega)
  · intro hcov
    obtain ⟨M, hM, _⟩ :=
      buildRows_ok (embeddingRow tok entries rand) VOCAB_SIZE 1
        (fun j hj1 hj2 =>
          embeddingRow_ok_of_le tok entries rand j hj1 (by omega))
    exact ⟨M, hM⟩

/-- Witness for C8: a vocabulary that is too small raises the key error, a
covering one returns a matrix. -/
theorem embedding_matrix_coverage_safety_witness :
    get_embedding_matrix ⟨VOCAB_SIZE, []⟩ []
        (fun _ => List.replicate EMBEDDING_SIZE 0) = .error PyError.keyError ∧
    ∃ M, get_embedding_matrix ⟨VOCAB_SIZE, List.replicate VOCAB_SIZE "a"⟩ []
        (fun _ => List.replicate EMBEDDING_SIZE 0) = .ok M :=
  ⟨(embedding_matrix_coverage_safety ⟨VOCAB_SIZE, []⟩ []
      (fun _ => List.replicate EMBEDDING_SIZE 0)).1 (by simp [VOCAB_SIZE]),
   (embedding_matrix_coverage_safety ⟨VOCAB_SIZE, List.replicate VOCAB_SIZE "a"⟩ []
      (fun _ => List.replicate EMBEDDING_SIZE 0)).2 (by simp)⟩
